import Mathlib

set_option maxHeartbeats 1000000

/-!
A shallow embedding of `goforecast.go` (package `main` of
alextoombs/goforecast) together with proofs about it.

Modelling conventions:
* Go strings that only flow through JSON or plain comparisons are modelled
  as Lean `String` (sequences of Unicode scalar values, matching Go strings
  that hold valid UTF-8).
* URL building and escaping operate on raw bytes in Go, so the URL part of
  the model uses `List Nat` with one entry per byte.
* Fallible Go functions return `Except GoError α`; each distinct failure
  site of the program has its own `GoError` constructor, and I/O failures
  carry an opaque numeric tag standing for the underlying `error` value.
* External effects (the HTTP exchange, the filesystem, the environment) are
  passed in explicitly as values describing their outcome.
-/

namespace Goforecast

/-- Errors produced by the program, one constructor per distinct failure
site in `goforecast.go`.  I/O errors carry an opaque tag standing for the
wrapped Go `error` value. -/
inductive GoError where
  /-- an `os` "file does not exist" error, i.e. `os.IsNotExist` holds -/
  | notExist
  /-- any other `os.Open` failure (permission denied, ...) -/
  | openOther (tag : Nat)
  /-- an `ioutil.ReadAll` failure -/
  | readOther (tag : Nat)
  /-- a `json.Unmarshal` failure -/
  | jsonErr
  /-- an `ioutil.WriteFile` failure -/
  | writeErr (tag : Nat)
  /-- `"could not find Forecast IO API key. Please set with ..."` -/
  | missingKey
  /-- a `client.Do` (transport-level) failure -/
  | transport (tag : Nat)
  /-- `"on request: got code %d"` -/
  | badStatus (code : Nat)
  /-- `"no geocoding results returned"` -/
  | noResults
  /-- an error returned by `forecast.Get` -/
  | forecastErr (tag : Nat)
  deriving DecidableEq, Repr

/-- `location` from `goforecast.go`: a latitude/longitude pair of Go
`float64` values. -/
structure location where
  Lat : Float
  Lng : Float

/-- `geometry` from `goforecast.go`: embeds an optional location
(`*location` in Go, so absence is `none`). -/
structure geometry where
  Location : Option location

/-- `geocodingResult` from `goforecast.go`: one result of the geocoding
lookup, with an optional geometry (`*geometry` in Go). -/
structure geocodingResult where
  Geometry : Option geometry

/-- `geocodingResponse` from `goforecast.go`: the decoded response body. -/
structure geocodingResponse where
  Results : List geocodingResult

/-- Outcome of reading and JSON-decoding the response body: either
`ioutil.ReadAll` fails, or the bytes are obtained and `json.Unmarshal`
either fails (`none`) or produces a `geocodingResponse`. -/
inductive BodyOutcome where
  | readFail (tag : Nat)
  | bytes (parsed : Option geocodingResponse)

/-- Outcome of `client.Do`: a transport failure, or a response carrying a
status code and a body. -/
inductive HttpOutcome where
  | transportFail (tag : Nat)
  | response (status : Nat) (body : BodyOutcome)

/-- `getGeocodingLocation` from `goforecast.go`, as a function of the HTTP
exchange's outcome.  Mirrors the source order: transport error, then the
status-code `switch` accepting exactly `http.StatusOK` (200) and
`http.StatusCreated` (201), then body read, then `json.Unmarshal`, then the
`len(geoResp.Results) == 0` check. -/
def getGeocodingLocation : HttpOutcome → Except GoError geocodingResponse
  | .transportFail t => .error (.transport t)
  | .response status body =>
    if status = 200 ∨ status = 201 then
      match body with
      | .readFail t => .error (.readOther t)
      | .bytes none => .error .jsonErr
      | .bytes (some geoResp) =>
        if geoResp.Results.length = 0 then .error .noResults
        else .ok geoResp
    else .error (.badStatus status)

/-- The dereference `geoResp.Results[0].Geometry.Location` performed at
line 89 of `goforecast.go` (inside `populateCommands`).  In Go this
expression panics when `Results` is empty or `Geometry`/`Location` is nil;
the model returns `none` exactly in those cases. -/
def extractLocation (r : geocodingResponse) : Option location :=
  (r.Results.head?.bind fun res => res.Geometry).bind fun g => g.Location

/-- C1: the claim says a successful `getGeocodingLocation` always has a
first result with non-null geometry and location, and that a response whose
first result lacks them is a fatal error for the lookup.  The code only
checks that `Results` is non-empty: on a 200 response decoding to
`{"results":[{}]}` it returns success with a `nil` `Geometry`, and the
dereference at line 89 then has no value (a runtime nil-pointer panic in
Go). -/
theorem c1_null_geometry_propagates :
    getGeocodingLocation (.response 200 (.bytes (some ⟨[⟨none⟩]⟩)))
        = .ok ⟨[⟨none⟩]⟩
      ∧ extractLocation ⟨[⟨none⟩]⟩ = none := by
  exact ⟨rfl, rfl⟩

/-- C5: exactly the status codes 200 and 201 are treated as success; any
other status yields the error carrying that code, and the body is neither
read nor parsed (the result is the same for every body). -/
theorem c5_status_codes :
    (∀ status body, status ≠ 200 → status ≠ 201 →
        getGeocodingLocation (.response status body) = .error (.badStatus status))
    ∧ (∀ status body code,
        getGeocodingLocation (.response status body) = .error (.badStatus code) →
          status ≠ 200 ∧ status ≠ 201) := by
  constructor
  · intro status body h200 h201
    simp [getGeocodingLocation, h200, h201]
  · intro status body code h
    by_cases hs : status = 200 ∨ status = 201
    · exfalso
      simp only [getGeocodingLocation, if_pos hs] at h
      cases body with
      | readFail t => exact absurd h (by simp)
      | bytes parsed =>
        cases parsed with
        | none => exact absurd h (by simp)
        | some r =>
          by_cases hr : r.Results.length = 0
          · simp [hr] at h
          · simp [hr] at h
    · push_neg at hs
      exact hs

/-- C5 witness: a 302 redirect with an unread body fails with the status
code 302. -/
theorem c5_status_codes_witness :
    getGeocodingLocation (.response 302 (.bytes none)) = .error (.badStatus 302) :=
  c5_status_codes.1 302 (.bytes none) (by decide) (by decide)

/-- C6: a body that decodes to an empty `results` sequence yields the
distinct `noResults` error (not the JSON-decode error), and every
successful return of `getGeocodingLocation` carries at least one result. -/
theorem c6_empty_results :
    (∀ status r, (status = 200 ∨ status = 201) → r.Results = [] →
        getGeocodingLocation (.response status (.bytes (some r))) = .error .noResults)
    ∧ GoError.noResults ≠ GoError.jsonErr
    ∧ (∀ input r, getGeocodingLocation input = .ok r → 1 ≤ r.Results.length) := by
  refine ⟨?_, by decide, ?_⟩
  · intro status r hs hr
    simp [getGeocodingLocation, hs, hr]
  · intro input r h
    cases input with
    | transportFail t => exact absurd h (by simp [getGeocodingLocation])
    | response status body =>
      by_cases hs : status = 200 ∨ status = 201
      · simp only [getGeocodingLocation, if_pos hs] at h
        cases body with
        | readFail t => exact absurd h (by simp)
        | bytes parsed =>
          cases parsed with
          | none => exact absurd h (by simp)
          | some resp =>
            by_cases hr : resp.Results.length = 0
            · simp [hr] at h
            · simp only [if_neg hr, Except.ok.injEq] at h
              subst h
              omega
      · simp [getGeocodingLocation, hs] at h

/-- C6 witness: a 200 response decoding to zero results fails with
`noResults`, and the successful response of `c1` indeed has one result. -/
theorem c6_empty_results_witness :
    getGeocodingLocation (.response 200 (.bytes (some ⟨[]⟩))) = .error .noResults :=
  c6_empty_results.1 200 ⟨[]⟩ (Or.inl rfl) rfl

/-! ## The persisted state file and its JSON encoding

`forecastIoState` is serialized with `json.Marshal` and read back with
`json.Unmarshal`.  `marshalState` reproduces the exact bytes Go emits for
this one-field struct (compact object, `encoding/json`'s default string
escaping with HTML escaping on).  `unmarshalState` models `json.Unmarshal`
specialized to `*forecastIoState`: it accepts `null`, and one-level objects
whose member values are strings or `null` — the JSON subset this program
itself ever writes — and reports a decode error (`none`) otherwise. -/

/-- The opening brace character of a JSON object. -/
def lbrace : Char := Char.ofNat 123

/-- The closing brace character of a JSON object. -/
def rbrace : Char := Char.ofNat 125

/-- `forecastIoState` from `goforecast.go`: the single-field JSON record
persisted to `$HOME/.goforecast`. -/
structure forecastIoState where
  ApiKey : String
  deriving DecidableEq, Repr

/-- Lowercase hex digit, as used by `encoding/json` (`"0123456789abcdef"`). -/
def hexLower (n : Nat) : Char :=
  if n < 10 then Char.ofNat (48 + n) else Char.ofNat (87 + n)

/-- One character of `encoding/json` string encoding (HTML escaping on, the
`json.Marshal` default): `"` `\` `\n` `\r` `\t` get two-character escapes,
other control characters and `<` `>` `&` become `\u00xx`, U+2028/U+2029
become six-character escapes, everything else passes through. -/
def encodeChar (c : Char) : List Char :=
  if c = '"' then ['\\', '"']
  else if c = '\\' then ['\\', '\\']
  else if c = '\n' then ['\\', 'n']
  else if c = '\r' then ['\\', 'r']
  else if c = '\t' then ['\\', 't']
  else if c.toNat < 32 ∨ c = '<' ∨ c = '>' ∨ c = '&' then
    ['\\', 'u', '0', '0', hexLower (c.toNat / 16), hexLower (c.toNat % 16)]
  else if c.toNat = 8232 then ['\\', 'u', '2', '0', '2', '8']
  else if c.toNat = 8233 then ['\\', 'u', '2', '0', '2', '9']
  else [c]

/-- A JSON string literal for `s`, as written by `json.Marshal`. -/
def encodeString (s : String) : List Char :=
  '"' :: (s.data.flatMap encodeChar ++ ['"'])

/-- The characters of the member name `api_key` (the struct tag of
`forecastIoState.ApiKey`). -/
def apiKeyChars : List Char := ['a', 'p', 'i', '_', 'k', 'e', 'y']

/-- `json.Marshal` applied to a `forecastIoState` (the body of `dumpState`):
the exact compact output `{"api_key":<string>}`. -/
def marshalState (s : forecastIoState) : List Char :=
  lbrace :: '"' :: (apiKeyChars ++ '"' :: ':' :: (encodeString s.ApiKey ++ [rbrace]))

/-- Value of a hex digit character, accepting both cases (as `encoding/json`
does when reading `\uXXXX`). -/
def hexVal (c : Char) : Option Nat :=
  if 48 ≤ c.toNat ∧ c.toNat ≤ 57 then some (c.toNat - 48)
  else if 97 ≤ c.toNat ∧ c.toNat ≤ 102 then some (c.toNat - 87)
  else if 65 ≤ c.toNat ∧ c.toNat ≤ 70 then some (c.toNat - 55)
  else none

/-- Value of a four-hex-digit group, as in `\uXXXX`. -/
def hex4 (a b c d : Char) : Option Nat :=
  match hexVal a, hexVal b, hexVal c, hexVal d with
  | some x, some y, some z, some w => some (((x * 16 + y) * 16 + z) * 16 + w)
  | _, _, _, _ => none

/-- The single-character JSON escapes accepted by `encoding/json`. -/
def unescapeSimple (c : Char) : Option Char :=
  if c = '"' then some '"'
  else if c = '\\' then some '\\'
  else if c = '/' then some '/'
  else if c = 'b' then some (Char.ofNat 8)
  else if c = 'f' then some (Char.ofNat 12)
  else if c = 'n' then some '\n'
  else if c = 'r' then some '\r'
  else if c = 't' then some '\t'
  else none

/-- Read a `\uXXXX` escape at the head of the input, returning its value
and the remaining input (the lookahead `encoding/json` performs after a
leading surrogate). -/
def readU : List Char → Option (Nat × List Char)
  | '\\' :: 'u' :: h1 :: h2 :: h3 :: h4 :: rest =>
    match hex4 h1 h2 h3 h4 with
    | some n => some (n, rest)
    | none => none
  | _ => none

theorem readU_length {l : List Char} {n : Nat} {r : List Char}
    (h : readU l = some (n, r)) : l.length = r.length + 6 := by
  unfold readU at h
  split at h
  · split at h
    · simp only [Option.some.injEq, Prod.mk.injEq] at h
      simp [← h.2]
    · exact absurd h (by simp)
  · exact absurd h (by simp)

/-- Decode the value of one `\uXXXX` escape, with `encoding/json`'s UTF-16
surrogate handling: a leading surrogate followed by a valid trailing
surrogate escape combines into one character consuming both escapes; a lone
or mismatched surrogate becomes U+FFFD consuming only the first. -/
def decodeU (n : Nat) (l : List Char) : Char × List Char :=
  if 55296 ≤ n ∧ n < 57344 then
    match readU l with
    | some (m, r) =>
      if n < 56320 ∧ 56320 ≤ m ∧ m < 57344 then
        (Char.ofNat (65536 + (n - 55296) * 1024 + (m - 56320)), r)
      else (Char.ofNat 65533, l)
    | none => (Char.ofNat 65533, l)
  else (Char.ofNat n, l)

theorem decodeU_length (n : Nat) (l : List Char) :
    (decodeU n l).2.length ≤ l.length := by
  cases hr : readU l with
  | none =>
    by_cases hs : 55296 ≤ n ∧ n < 57344 <;> simp [decodeU, hr, hs]
  | some p =>
    obtain ⟨m, r⟩ := p
    have hlen := readU_length hr
    by_cases hs : 55296 ≤ n ∧ n < 57344
    · by_cases hc : n < 56320 ∧ 56320 ≤ m ∧ m < 57344
      · simp [decodeU, hr, hs, hc]
        omega
      · simp [decodeU, hr, hs, hc]
    · simp [decodeU, hs]

/-- Parse the body of a JSON string literal (everything after the opening
quote) the way `encoding/json` unquotes it: simple escapes, `\uXXXX` with
UTF-16 surrogate-pair handling, a rejection of unescaped control
characters.  Returns the decoded characters and the input remaining after
the closing quote. -/
def parseStringBody : List Char → Option (List Char × List Char)
  | [] => none
  | c :: rest =>
    if c = '"' then some ([], rest)
    else if c = '\\' then
      match rest with
      | [] => none
      | e :: rest2 =>
        if e = 'u' then
          match rest2 with
          | h1 :: h2 :: h3 :: h4 :: rest3 =>
            match hex4 h1 h2 h3 h4 with
            | none => none
            | some n =>
              (parseStringBody (decodeU n rest3).2).map fun p =>
                ((decodeU n rest3).1 :: p.1, p.2)
          | _ => none
        else
          match unescapeSimple e with
          | some u => (parseStringBody rest2).map fun p => (u :: p.1, p.2)
          | none => none
    else if c.toNat < 32 then none
    else (parseStringBody rest).map fun p => (c :: p.1, p.2)
termination_by l => l.length
decreasing_by
  all_goals simp only [List.length_cons]
  · have := decodeU_length n rest3
    omega
  · omega
  · omega

theorem hexVal_hexLower {d : Nat} (h : d < 16) : hexVal (hexLower d) = some d := by
  interval_cases d <;> decide

theorem hex4_encode {n : Nat} (h : n < 63) :
    hex4 '0' '0' (hexLower (n / 16)) (hexLower (n % 16)) = some n := by
  have h1 : n / 16 < 16 := by omega
  have h2 : n % 16 < 16 := by omega
  have e0 : hexVal '0' = some 0 := by decide
  simp only [hex4, e0, hexVal_hexLower h1, hexVal_hexLower h2, Option.some.injEq]
  omega

theorem decodeU_nonsurrogate {n : Nat} (h : ¬ (55296 ≤ n ∧ n < 57344))
    (l : List Char) : decodeU n l = (Char.ofNat n, l) := by
  simp [decodeU, h]

/-! Small-step rewriting lemmas for `parseStringBody` (its well-founded
equations are conditional, so we derive unconditional forms once). -/

theorem psb_quote (rest : List Char) :
    parseStringBody ('"' :: rest) = some ([], rest) := by
  rw [parseStringBody.eq_def]
  simp

theorem psb_simple {e u : Char} (he : unescapeSimple e = some u) (hu : e ≠ 'u')
    (rest : List Char) :
    parseStringBody ('\\' :: e :: rest) =
      (parseStringBody rest).map fun p => (u :: p.1, p.2) := by
  rw [parseStringBody.eq_def]
  simp [hu, he]

theorem psb_u {h1 h2 h3 h4 : Char} {n : Nat} (h : hex4 h1 h2 h3 h4 = some n)
    (rest : List Char) :
    parseStringBody ('\\' :: 'u' :: h1 :: h2 :: h3 :: h4 :: rest) =
      (parseStringBody (decodeU n rest).2).map fun p =>
        ((decodeU n rest).1 :: p.1, p.2) := by
  rw [parseStringBody.eq_def]
  simp [h]

theorem psb_other {c : Char} (hq : c ≠ '"') (hb : c ≠ '\\') (hc : ¬ c.toNat < 32)
    (rest : List Char) :
    parseStringBody (c :: rest) = (parseStringBody rest).map fun p => (c :: p.1, p.2) := by
  rw [parseStringBody.eq_def]
  simp [hq, hb, hc]

/-- One encoded character is decoded back and the parse continues: the
central step of the write/read round trip. -/
theorem parseStringBody_encodeChar (c : Char) (T : List Char) :
    parseStringBody (encodeChar c ++ T) =
      (parseStringBody T).map fun p => (c :: p.1, p.2) := by
  by_cases h1 : c = '"'
  · subst h1
    have he : encodeChar '"' = ['\\', '"'] := by decide
    rw [he]
    exact psb_simple (by decide) (by decide) T
  by_cases h2 : c = '\\'
  · subst h2
    have he : encodeChar '\\' = ['\\', '\\'] := by decide
    rw [he]
    exact psb_simple (by decide) (by decide) T
  by_cases h3 : c = '\n'
  · subst h3
    have he : encodeChar '\n' = ['\\', 'n'] := by decide
    rw [he]
    exact psb_simple (by decide) (by decide) T
  by_cases h4 : c = '\x0d'
  · subst h4
    have he : encodeChar '\x0d' = ['\\', 'r'] := by decide
    rw [he]
    exact psb_simple (by decide) (by decide) T
  by_cases h5 : c = '\t'
  · subst h5
    have he : encodeChar '\t' = ['\\', 't'] := by decide
    rw [he]
    exact psb_simple (by decide) (by decide) T
  by_cases h6 : c.toNat < 32 ∨ c = '<' ∨ c = '>' ∨ c = '&'
  · have hlt : c.toNat < 63 := by
      rcases h6 with h | h | h | h
      · omega
      all_goals subst h; decide
    have he : encodeChar c =
        ['\\', 'u', '0', '0', hexLower (c.toNat / 16), hexLower (c.toNat % 16)] := by
      simp only [encodeChar, if_neg h1, if_neg h2, if_neg h3, if_neg h4, if_neg h5,
        if_pos h6]
    rw [he]
    simp only [List.cons_append, List.nil_append]
    rw [psb_u (hex4_encode hlt) T, decodeU_nonsurrogate (by omega) T,
      Char.ofNat_toNat]
  by_cases h7 : c.toNat = 8232
  · have hc : Char.ofNat 8232 = c := by rw [← h7, Char.ofNat_toNat]
    have he : encodeChar c = ['\\', 'u', '2', '0', '2', '8'] := by
      simp only [encodeChar, if_neg h1, if_neg h2, if_neg h3, if_neg h4, if_neg h5,
        if_neg h6, if_pos h7]
    rw [he]
    simp only [List.cons_append, List.nil_append]
    rw [psb_u (show hex4 '2' '0' '2' '8' = some 8232 by decide) T,
      decodeU_nonsurrogate (by omega) T, hc]
  by_cases h8 : c.toNat = 8233
  · have hc : Char.ofNat 8233 = c := by rw [← h8, Char.ofNat_toNat]
    have he : encodeChar c = ['\\', 'u', '2', '0', '2', '9'] := by
      simp only [encodeChar, if_neg h1, if_neg h2, if_neg h3, if_neg h4, if_neg h5,
        if_neg h6, if_neg h7, if_pos h8]
    rw [he]
    simp only [List.cons_append, List.nil_append]
    rw [psb_u (show hex4 '2' '0' '2' '9' = some 8233 by decide) T,
      decodeU_nonsurrogate (by omega) T, hc]
  · have hge : ¬ c.toNat < 32 := fun h => h6 (Or.inl h)
    have he : encodeChar c = [c] := by
      simp only [encodeChar, if_neg h1, if_neg h2, if_neg h3, if_neg h4, if_neg h5,
        if_neg h6, if_neg h7, if_neg h8]
    rw [he]
    simp only [List.cons_append, List.nil_append]
    exact psb_other h1 h2 hge T

/-- The full JSON-string round trip: the encoded body followed by the
closing quote parses back to the original characters. -/
theorem parseStringBody_encode (cs : List Char) (rest : List Char) :
    parseStringBody (cs.flatMap encodeChar ++ '"' :: rest) = some (cs, rest) := by
  induction cs with
  | nil => simpa using psb_quote rest
  | cons c cs ih =>
    rw [List.flatMap_cons, List.append_assoc, parseStringBody_encodeChar, ih]
    rfl

/-- JSON whitespace, as accepted between tokens by `encoding/json`. -/
def isJsonWs (c : Char) : Bool :=
  c = ' ' ∨ c = Char.ofNat 9 ∨ c = '\n' ∨ c = Char.ofNat 13

/-- Skip JSON whitespace. -/
def skipWs (l : List Char) : List Char := l.dropWhile isJsonWs

/-- Parse one JSON object member value of the shapes this program's state
file can hold: a string literal or `null`.  Returns `some` for a string,
`none` inside the pair for `null`. -/
def parseMemberValue : List Char → Option (Option (List Char) × List Char)
  | [] => none
  | c :: rest =>
    if c = '"' then
      match parseStringBody rest with
      | some (cs, r) => some (some cs, r)
      | none => none
    else if c = 'n' then
      match rest with
      | 'u' :: 'l' :: 'l' :: rest2 => some (none, rest2)
      | _ => none
    else none

/-- Parse one JSON object member: `ws string ws : ws value`. -/
def parseMember (l : List Char) : Option (List Char × Option (List Char) × List Char) :=
  match skipWs l with
  | [] => none
  | q :: rest =>
    if q = '"' then
      match parseStringBody rest with
      | some (k, rest2) =>
        match skipWs rest2 with
        | [] => none
        | col :: rest3 =>
          if col = ':' then
            match parseMemberValue (skipWs rest3) with
            | some (v, rest4) => some (k, v, rest4)
            | none => none
          else none
      | none => none
    else none

/-- Parse the members of a non-empty JSON object, starting right after the
opening brace, accumulating the last value seen for the `"api_key"` member
(later duplicates overwrite, `null` leaves the field untouched, unknown
members are ignored — all `json.Unmarshal` behaviours).  The fuel only
bounds the number of members and is set to the input length, which one
member at least consumes. -/
def parseObject (fuel : Nat) (l : List Char) (acc : Option (List Char)) :
    Option (Option (List Char) × List Char) :=
  match parseMember l with
  | none => none
  | some (k, v, rest) =>
    let acc2 := if k = apiKeyChars then
        (match v with
         | some sv => some sv
         | none => acc)
      else acc
    match skipWs rest with
    | [] => none
    | c :: rest2 =>
      if c = ',' then
        match fuel with
        | 0 => none
        | fuel2 + 1 => parseObject fuel2 rest2 acc2
      else if c = rbrace then some (acc2, rest2)
      else none

/-- `json.Unmarshal` into a `**forecastIoState` (the call in
`restoreState`), on the modelled JSON subset: `null` yields a nil state
(`some none`), an object yields a state whose `ApiKey` is the last
`"api_key"` string member (or `""` when absent), anything else is a decode
error (`none`). -/
def unmarshalState (l : List Char) : Option (Option forecastIoState) :=
  match skipWs l with
  | [] => none
  | c :: rest =>
    if c = 'n' then
      match rest with
      | 'u' :: 'l' :: 'l' :: rest2 =>
        if (skipWs rest2).isEmpty then some none else none
      | _ => none
    else if c = lbrace then
      match skipWs rest with
      | [] => none
      | d :: rest2 =>
        if d = rbrace then
          if (skipWs rest2).isEmpty then some (some ⟨""⟩) else none
        else
          match parseObject rest.length rest none with
          | some (acc, rest3) =>
            if (skipWs rest3).isEmpty then some (some ⟨String.mk (acc.getD [])⟩)
            else none
          | none => none
    else none

/-- Outcome of opening and reading the state file, the input to
`restoreState`: `os.Open` fails, `ioutil.ReadAll` fails, or the file's
contents are obtained. -/
inductive FileRead where
  | openFail (e : GoError)
  | readFail (tag : Nat)
  | ok (content : List Char)

/-- `restoreState` from `goforecast.go`: propagate the open error
unchanged, propagate the read error, otherwise `json.Unmarshal` the bytes
(a parse failure is the unmarshal error). -/
def restoreState : FileRead → Except GoError (Option forecastIoState)
  | .openFail e => .error e
  | .readFail t => .error (.readOther t)
  | .ok b =>
    match unmarshalState b with
    | none => .error .jsonErr
    | some st => .ok st

/-- `os.IsNotExist` on the modelled errors. -/
def isNotExist : GoError → Bool
  | .notExist => true
  | _ => false

/-- The environment-variable fallback at the end of `getForecastIOKey`:
`os.Getenv` yields `env` (the empty string when unset), and an empty value
is the missing-key error. -/
def envFallback (env : String) : Except GoError String :=
  if env = "" then .error .missingKey else .ok env

/-- `getForecastIOKey` from `goforecast.go`: read the state file; a failure
other than non-existence aborts; a state with a non-empty key is returned
as-is; otherwise fall back to the environment variable. -/
def getForecastIOKey (fr : FileRead) (env : String) : Except GoError String :=
  match restoreState fr with
  | .error e => if isNotExist e then envFallback env else .error e
  | .ok st =>
    match st with
    | some s => if s.ApiKey ≠ "" then .ok s.ApiKey else envFallback env
    | none => envFallback env

theorem skipWs_cons {c : Char} (h : isJsonWs c = false) (l : List Char) :
    skipWs (c :: l) = c :: l := by
  simp [skipWs, List.dropWhile_cons, h]

/-- Helper: `parseObject` on input holding exactly one member followed by
the closing brace. -/
theorem parseObject_one {l sv : List Char} (fuel : Nat) (acc : Option (List Char))
    (hm : parseMember l = some (apiKeyChars, some sv, [rbrace])) :
    parseObject fuel l acc = some (some sv, []) := by
  rw [parseObject.eq_def, hm]
  have h125 : skipWs [Char.ofNat 125] = [Char.ofNat 125] := by decide
  simp [rbrace, h125]

/-- The JSON round trip at the record level: unmarshalling the exact bytes
`dumpState` writes recovers the same state. -/
theorem unmarshal_marshal (s : forecastIoState) :
    unmarshalState (marshalState s) = some (some s) := by
  obtain ⟨k⟩ := s
  have hfm : apiKeyChars.flatMap encodeChar = apiKeyChars := by decide
  have hkey := parseStringBody_encode apiKeyChars (':' :: (encodeString k ++ [rbrace]))
  rw [hfm] at hkey
  have hval : parseStringBody (k.data.flatMap encodeChar ++ ['"', rbrace])
      = some (k.data, [rbrace]) := parseStringBody_encode k.data [rbrace]
  have hmv : parseMemberValue (skipWs (encodeString k ++ [rbrace]))
      = some (some k.data, [rbrace]) := by
    rw [encodeString, List.cons_append,
      skipWs_cons (show isJsonWs '"' = false by decide)]
    simp [parseMemberValue, hval]
  have hmem : parseMember ('"' :: (apiKeyChars ++ '"' :: ':' :: (encodeString k ++ [rbrace])))
      = some (apiKeyChars, some k.data, [rbrace]) := by
    rw [parseMember, skipWs_cons (show isJsonWs '"' = false by decide)]
    simp only [show ('"' : Char) = '"' from rfl, if_pos, hkey]
    rw [skipWs_cons (show isJsonWs ':' = false by decide)]
    simp [hmv]
  have hobj := parseObject_one
    ((apiKeyChars ++ '"' :: ':' :: (encodeString k ++ [rbrace])).length + 1) none hmem
  rw [marshalState, unmarshalState.eq_def,
    skipWs_cons (show isJsonWs lbrace = false by decide)]
  simp only [show (lbrace = 'n') = False by simp [lbrace], if_neg, ite_false,
    show (lbrace = lbrace) = True by simp, ite_true]
  rw [skipWs_cons (show isJsonWs '"' = false by decide)]
  simp only [show ('"' = rbrace) = False by simp [rbrace], ite_false]
  rw [List.length_cons, hobj]
  simp [skipWs]

/-- C4: when the state file is read successfully and its key field is
non-empty, `getForecastIOKey` returns the stored key and the environment
variable is never consulted — the result is identical for any two
environment values. -/
theorem c4_state_key_ignores_env (fr : FileRead) (s : forecastIoState)
    (hread : restoreState fr = .ok (some s)) (hkey : s.ApiKey ≠ "") :
    ∀ env1 env2 : String,
      getForecastIOKey fr env1 = .ok s.ApiKey
        ∧ getForecastIOKey fr env1 = getForecastIOKey fr env2 := by
  intro env1 env2
  simp [getForecastIOKey, hread, hkey]

/-- C4 witness: with a state file holding `{"api_key":"k"}`, key resolution
returns `"k"` whether the environment variable is unset or set. -/
theorem c4_state_key_ignores_env_witness :
    getForecastIOKey (.ok (marshalState ⟨"k"⟩)) "" = .ok "k"
      ∧ getForecastIOKey (.ok (marshalState ⟨"k"⟩)) ""
          = getForecastIOKey (.ok (marshalState ⟨"k"⟩)) "other" :=
  c4_state_key_ignores_env (.ok (marshalState ⟨"k"⟩)) ⟨"k"⟩
    (by rw [restoreState, unmarshal_marshal]) (by decide) "" "other"

/-- C7: a "file does not exist" failure of the state read falls through to
the environment variable; any other open failure, any read failure, and any
JSON parse failure is returned as that error and aborts the lookup. -/
theorem c7_not_exist_falls_through :
    (∀ env, getForecastIOKey (.openFail .notExist) env = envFallback env)
    ∧ (∀ t env, getForecastIOKey (.openFail (.openOther t)) env
        = .error (.openOther t))
    ∧ (∀ t env, getForecastIOKey (.readFail t) env = .error (.readOther t))
    ∧ (∀ b env, unmarshalState b = none →
        getForecastIOKey (.ok b) env = .error .jsonErr) := by
  refine ⟨?_, ?_, ?_, ?_⟩
  · intro env
    simp [getForecastIOKey, restoreState, isNotExist]
  · intro t env
    simp [getForecastIOKey, restoreState, isNotExist]
  · intro t env
    simp [getForecastIOKey, restoreState, isNotExist]
  · intro b env hb
    simp [getForecastIOKey, restoreState, hb, isNotExist]

/-- C7 witness: with no state file and the variable set, resolution yields
the environment value; a corrupt state file (`@`) aborts with the JSON
error. -/
theorem c7_not_exist_falls_through_witness :
    getForecastIOKey (.openFail .notExist) "envkey" = envFallback "envkey"
      ∧ getForecastIOKey (.ok ['@']) "envkey" = .error .jsonErr :=
  ⟨c7_not_exist_falls_through.1 "envkey",
    c7_not_exist_falls_through.2.2.2 ['@'] "envkey" (by decide)⟩

/-! ## The filesystem world: `dumpState` and repeated key resolution -/

/-- The state file as the program can find it: absent, present with some
contents, or present but failing to open/read with a given error. -/
inductive FileState where
  | absent
  | present (content : List Char)
  | damaged (e : GoError)

/-- The external world of one key-resolution run: the state file, the
`FORECAST_IO_API_KEY` environment variable (`""` when unset), and whether
`ioutil.WriteFile` succeeds. -/
structure World where
  file : FileState
  env : String
  writeOk : Bool

/-- Opening and reading the state file in a given world. -/
def readState (w : World) : FileRead :=
  match w.file with
  | .absent => .openFail .notExist
  | .present c => .ok c
  | .damaged e => .openFail e

/-- `dumpState` from `goforecast.go`: `json.Marshal` the state (which
cannot fail for this struct) and write the bytes to the state file,
overwriting it; a write failure is returned as an error. -/
def dumpState (w : World) (s : forecastIoState) : Except GoError World :=
  if w.writeOk then .ok { w with file := .present (marshalState s) }
  else .error (.writeErr 0)

/-- The key-resolution-and-persist prefix of `getForecast` (lines 184–194):
resolve the key, then `dumpState(&forecastIoState{ApiKey: key})`, returning
the key and the world after the run. -/
def runKeyResolution (w : World) : Except GoError String × World :=
  match getForecastIOKey (readState w) w.env with
  | .error e => (.error e, w)
  | .ok key =>
    match dumpState w ⟨key⟩ with
    | .error e => (.error e, w)
    | .ok w2 => (.ok key, w2)

/-- C8: starting from a pre-existing valid state file with a non-empty key
(and writable storage), running key resolution twice yields the same key
both times, and the state-file content after the second run equals the
content after the first run. -/
theorem c8_key_resolution_idempotent (w : World) (c : List Char)
    (s : forecastIoState) (hfile : w.file = .present c)
    (hparse : unmarshalState c = some (some s)) (hkey : s.ApiKey ≠ "")
    (hw : w.writeOk = true) :
    (runKeyResolution w).1 = .ok s.ApiKey
      ∧ (runKeyResolution (runKeyResolution w).2).1 = .ok s.ApiKey
      ∧ (runKeyResolution (runKeyResolution w).2).2.file
          = (runKeyResolution w).2.file := by
  obtain ⟨f, env, wo⟩ := w
  simp only at hfile hw
  subst hfile
  subst hw
  have hs : (⟨s.ApiKey⟩ : forecastIoState) = s := rfl
  have h1 : getForecastIOKey (readState ⟨.present c, env, true⟩) env = .ok s.ApiKey := by
    simp [getForecastIOKey, readState, restoreState, hparse, hkey]
  have hrun1 : runKeyResolution ⟨.present c, env, true⟩
      = (.ok s.ApiKey, ⟨.present (marshalState ⟨s.ApiKey⟩), env, true⟩) := by
    simp [runKeyResolution, h1, dumpState]
  have h2 : getForecastIOKey
      (readState ⟨.present (marshalState ⟨s.ApiKey⟩), env, true⟩) env = .ok s.ApiKey := by
    simp [getForecastIOKey, readState, restoreState, hs, unmarshal_marshal, hkey]
  have hrun2 : runKeyResolution ⟨.present (marshalState ⟨s.ApiKey⟩), env, true⟩
      = (.ok s.ApiKey, ⟨.present (marshalState ⟨s.ApiKey⟩), env, true⟩) := by
    simp [runKeyResolution, h2, dumpState]
  rw [hrun1]
  simp [hrun2]

/-- C8 witness: with the state file `{"api_key":"k"}`, two runs both yield
`"k"` and the file content is stable after the first run. -/
theorem c8_key_resolution_idempotent_witness :
    (runKeyResolution ⟨.present (marshalState ⟨"k"⟩), "", true⟩).1 = .ok "k"
      ∧ (runKeyResolution (runKeyResolution ⟨.present (marshalState ⟨"k"⟩), "", true⟩).2).1
          = .ok "k"
      ∧ (runKeyResolution (runKeyResolution ⟨.present (marshalState ⟨"k"⟩), "", true⟩).2).2.file
          = (runKeyResolution ⟨.present (marshalState ⟨"k"⟩), "", true⟩).2.file :=
  c8_key_resolution_idempotent ⟨.present (marshalState ⟨"k"⟩), "", true⟩
    (marshalState ⟨"k"⟩) ⟨"k"⟩ rfl (unmarshal_marshal ⟨"k"⟩) (by decide) rfl

/-- C10: a successful `dumpState` followed by `restoreState` recovers a
state record with the same `ApiKey` (the JSON write/read round trip). -/
theorem c10_dump_restore_roundtrip (w : World) (s : forecastIoState)
    (hw : w.writeOk = true) :
    ∃ w2, dumpState w s = .ok w2
      ∧ restoreState (readState w2) = .ok (some s) := by
  refine ⟨{ w with file := .present (marshalState s) }, by simp [dumpState, hw], ?_⟩
  simp [readState, restoreState, unmarshal_marshal]

/-- C10 witness: dumping `{ApiKey := "secret"}` and restoring yields a state
with the same key. -/
theorem c10_dump_restore_roundtrip_witness :
    ∃ w2, dumpState ⟨.absent, "", true⟩ ⟨"secret"⟩ = .ok w2
      ∧ restoreState (readState w2) = .ok (some ⟨"secret"⟩) :=
  c10_dump_restore_roundtrip ⟨.absent, "", true⟩ ⟨"secret"⟩ rfl

/-! ## `getForecast`: order of state write and forecast fetch -/

/-- The forecast library's unit systems; `getForecast` always passes
`forecast.US`. -/
inductive Units where
  | us
  | si
  | ca
  | uk
  deriving DecidableEq, Repr

/-- An opaque forecast record returned by the external `forecast.Get`. -/
structure Forecast where
  tag : Nat
  deriving DecidableEq, Repr

/-- The observable external effects of `getForecast`, in order of
occurrence. -/
inductive Event where
  /-- `dumpState` wrote the state file for this key -/
  | stateDumped (key : String)
  /-- `forecast.Get` was called with these arguments -/
  | forecastFetched (key lat lng timeWindow : String) (units : Units)
  deriving DecidableEq, Repr

/-- The environment `getForecast` runs in: the state-file read outcome and
environment variable feeding `getForecastIOKey`, the outcome `dumpState`
would have for a given key, the `fmt.Sprintf` "%.2f" renderings of
`loc.Lat`/`loc.Lng` (floating-point formatting kept opaque), and the
outcome of the external `forecast.Get`. -/
structure ForecastEnv where
  fileRead : FileRead
  env : String
  dumpRes : String → Except GoError Unit
  latStr : String
  lngStr : String
  fetchRes : Except GoError Forecast

/-- `getForecast` from `goforecast.go` as a function of its environment,
also returning the trace of external effects: resolve the key (any error
propagates), persist it with `dumpState` (any error propagates), and only
then call `forecast.Get(key, lat, lng, "now", forecast.US)`. -/
def getForecast (e : ForecastEnv) : Except GoError Forecast × List Event :=
  match getForecastIOKey e.fileRead e.env with
  | .error err => (.error err, [])
  | .ok key =>
    match e.dumpRes key with
    | .error err => (.error err, [])
    | .ok _ =>
      (e.fetchRes,
        [.stateDumped key, .forecastFetched key e.latStr e.lngStr "now" .us])

/-- C3: the forecast is fetched only after the resolved key is durably
stored — if writing the state file fails, `getForecast` returns that error
and `forecast.Get` is never called; and whenever a fetch appears in the
trace, the state write succeeded and the dump event precedes the fetch. -/
theorem c3_fetch_only_after_dump (e : ForecastEnv) :
    (∀ key err, getForecastIOKey e.fileRead e.env = .ok key →
        e.dumpRes key = .error err →
          getForecast e = (.error err, [])
            ∧ ∀ k la lo tw u, Event.forecastFetched k la lo tw u ∉ (getForecast e).2)
    ∧ (∀ k la lo tw u, Event.forecastFetched k la lo tw u ∈ (getForecast e).2 →
        ∃ key, getForecastIOKey e.fileRead e.env = .ok key
          ∧ e.dumpRes key = .ok ()
          ∧ (getForecast e).2
              = [.stateDumped key,
                 .forecastFetched key e.latStr e.lngStr "now" .us]) := by
  constructor
  · intro key err hkey hdump
    have hrun : getForecast e = (.error err, []) := by
      simp [getForecast, hkey, hdump]
    exact ⟨hrun, by simp [hrun]⟩
  · intro k la lo tw u hmem
    rcases hkey : getForecastIOKey e.fileRead e.env with err | key
    · simp [getForecast, hkey] at hmem
    · rcases hdump : e.dumpRes key with err | u2
      · simp [getForecast, hkey, hdump] at hmem
      · exact ⟨key, rfl, by rw [hdump], by simp [getForecast, hkey, hdump]⟩

/-- C3 witness: with a resolvable key but a failing state write, the write
error is returned and no fetch event occurs. -/
theorem c3_fetch_only_after_dump_witness :
    getForecast ⟨.openFail .notExist, "k", fun _ => .error (.writeErr 7), "1.00",
        "2.00", .ok ⟨0⟩⟩ = (.error (.writeErr 7), [])
      ∧ ∀ k la lo tw u, Event.forecastFetched k la lo tw u
          ∉ (getForecast ⟨.openFail .notExist, "k", fun _ => .error (.writeErr 7),
              "1.00", "2.00", .ok ⟨0⟩⟩).2 :=
  (c3_fetch_only_after_dump _).1 "k" (.writeErr 7) rfl rfl

/-! ## URL building: `parseGeocodingAddr` and `buildGeocodingURL`

Go's `net/url` operates on raw bytes, so this part of the model uses
`List Nat` with one entry per byte.  The modelled `net/url` semantics are
those of the Go releases contemporary with this repository (whose
`URL.String` writes the host verbatim): `QueryEscape`/`Values.Encode`,
`escape(..., encodePath)`, `URL.String`, `Parse` and `ParseQuery`, each
restricted where noted to the URL shapes this program can produce. -/

/-- Bytes of an ASCII string literal. -/
def bs (s : String) : List Nat := s.data.map Char.toNat

/-- `geocodeHost` from `goforecast.go` (note the trailing slash). -/
def geocodeHost : List Nat := bs "maps.googleapis.com/"

/-- `geocodePath` from `goforecast.go`. -/
def geocodePath : List Nat := bs "maps/api/geocode/json"

/-- ASCII letter or digit. -/
def isAlnumByte (b : Nat) : Bool :=
  (48 ≤ b ∧ b ≤ 57) ∨ (65 ≤ b ∧ b ≤ 90) ∨ (97 ≤ b ∧ b ≤ 122)

/-- `shouldEscape(c, encodeQueryComponent)`: everything but alphanumerics
and `-` `_` `.` `~` is escaped in a query component. -/
def shouldEscapeQuery (b : Nat) : Bool :=
  !(isAlnumByte b ∨ b = 45 ∨ b = 95 ∨ b = 46 ∨ b = 126)

/-- `shouldEscape(c, encodePath)`: alphanumerics, `-` `_` `.` `~` and the
reserved characters `$` `&` `+` `,` `/` `:` `;` `=` `@` stay; `?` and
everything else is escaped. -/
def shouldEscapePath (b : Nat) : Bool :=
  !(isAlnumByte b ∨ b = 45 ∨ b = 95 ∨ b = 46 ∨ b = 126 ∨ b = 36 ∨ b = 38
    ∨ b = 43 ∨ b = 44 ∨ b = 47 ∨ b = 58 ∨ b = 59 ∨ b = 61 ∨ b = 64)

/-- Uppercase hex digit byte, from `"0123456789ABCDEF"`. -/
def upperHexDigit (n : Nat) : Nat := if n < 10 then 48 + n else 55 + n

/-- One byte of `QueryEscape`: space becomes `+`, escaped bytes become
`%XX`, the rest pass through. -/
def escapeQueryByte (b : Nat) : List Nat :=
  if shouldEscapeQuery b then
    (if b = 32 then [43] else [37, upperHexDigit (b / 16), upperHexDigit (b % 16)])
  else [b]

/-- `url.QueryEscape`. -/
def queryEscape (s : List Nat) : List Nat := s.flatMap escapeQueryByte

/-- One byte of `escape(s, encodePath)`. -/
def escapePathByte (b : Nat) : List Nat :=
  if shouldEscapePath b then [37, upperHexDigit (b / 16), upperHexDigit (b % 16)]
  else [b]

/-- `escape(s, encodePath)`, applied to the path by `URL.String`. -/
def pathEscape (s : List Nat) : List Nat := s.flatMap escapePathByte

/-- Value of a hex digit byte, either case. -/
def hexDigitVal (b : Nat) : Option Nat :=
  if 48 ≤ b ∧ b ≤ 57 then some (b - 48)
  else if 97 ≤ b ∧ b ≤ 102 then some (b - 87)
  else if 65 ≤ b ∧ b ≤ 70 then some (b - 55)
  else none

/-- `url.QueryUnescape`: `%XX` decodes, `+` becomes space, a malformed
escape is an error. -/
def queryUnescape : List Nat → Option (List Nat)
  | [] => some []
  | b :: rest =>
    if b = 37 then
      match rest with
      | h1 :: h2 :: rest2 =>
        match hexDigitVal h1, hexDigitVal h2 with
        | some x, some y => (queryUnescape rest2).map fun t => (16 * x + y) :: t
        | _, _ => none
      | _ => none
    else if b = 43 then (queryUnescape rest).map fun t => 32 :: t
    else (queryUnescape rest).map fun t => b :: t

/-- `unescape(s, encodePath)`, as applied by `Parse` to the path: like
query unescaping but `+` stays itself. -/
def pathUnescape : List Nat → Option (List Nat)
  | [] => some []
  | b :: rest =>
    if b = 37 then
      match rest with
      | h1 :: h2 :: rest2 =>
        match hexDigitVal h1, hexDigitVal h2 with
        | some x, some y => (pathUnescape rest2).map fun t => (16 * x + y) :: t
        | _, _ => none
      | _ => none
    else (pathUnescape rest).map fun t => b :: t

/-- `url.Values`: a map from key bytes to the list of value bytes, modelled
as an association list in first-insertion order. -/
abbrev Values := List (List Nat × List (List Nat))

/-- `Values.Add`: append the value to the key's slice. -/
def valuesAdd (v : Values) (key value : List Nat) : Values :=
  match v with
  | [] => [(key, [value])]
  | (k, vs) :: rest =>
    if k = key then (k, vs ++ [value]) :: rest
    else (k, vs) :: valuesAdd rest key value

/-- Map lookup (`v[key]`), the empty slice when absent. -/
def valuesGet (v : Values) (key : List Nat) : List (List Nat) :=
  match v with
  | [] => []
  | (k, vs) :: rest => if k = key then vs else valuesGet rest key

/-- Lexicographic byte order on keys, as `sort.Strings` uses. -/
def lexLe : List Nat → List Nat → Bool
  | [], _ => true
  | _ :: _, [] => false
  | a :: xs, b :: ys => if a < b then true else if b < a then false else lexLe xs ys

/-- Insertion into a key-sorted association list. -/
def insertPair (p : List Nat × List (List Nat)) : Values → Values
  | [] => [p]
  | q :: rest => if lexLe p.1 q.1 then p :: q :: rest else q :: insertPair p rest

/-- Sort by key (`Values.Encode` sorts its keys). -/
def sortByKey (v : Values) : Values := v.foldr insertPair []

/-- The `&`-separator logic of `Values.Encode` (a `&` before every pair
except the first). -/
def joinAmp : List (List Nat) → List Nat
  | [] => []
  | [x] => x
  | x :: y :: ys => x ++ 38 :: joinAmp (y :: ys)

/-- `Values.Encode`: sorted keys, `escapedKey=escapedValue` pairs joined
with `&`. -/
def valuesEncode (v : Values) : List Nat :=
  joinAmp
    ((sortByKey v).flatMap fun p => p.2.map fun w => queryEscape p.1 ++ 61 :: queryEscape w)

/-- A parsed URL: the fields of `url.URL` this program touches (no user
info, opaque part or fragment arises for its URLs). -/
structure GoURL where
  scheme : List Nat
  host : List Nat
  path : List Nat
  rawQuery : List Nat
  deriving DecidableEq, Repr

/-- `URL.String` for URLs with empty `Opaque`, `User` and `Fragment`, as in
the Go releases this repository builds against: the scheme, `//`, the host
written verbatim, a `/` when the path is rootless and a host is present,
the path escaped in path mode, and `?` plus the raw query when non-empty. -/
def urlString (u : GoURL) : List Nat :=
  (if u.scheme ≠ [] then u.scheme ++ [58] else [])
    ++ (if u.scheme ≠ [] ∨ u.host ≠ [] then [47, 47] else [])
    ++ u.host
    ++ (if u.path ≠ [] ∧ u.path.head? ≠ some 47 ∧ u.host ≠ [] then [47] else [])
    ++ pathEscape u.path
    ++ (if u.rawQuery ≠ [] then 63 :: u.rawQuery else [])

/-- `split(s, c, true)`: cut at the first occurrence of the separator;
`none` when absent. -/
def splitFirst (sep : Nat) : List Nat → List Nat × Option (List Nat)
  | [] => ([], none)
  | b :: rest =>
    if b = sep then ([], some rest)
    else
      let p := splitFirst sep rest
      (b :: p.1, p.2)

/-- `split(s, c, false)`: cut at the first occurrence, keeping the
separator in the right part (the right part is empty when absent). -/
def splitFirstKeep (sep : Nat) : List Nat → List Nat × List Nat
  | [] => ([], [])
  | b :: rest =>
    if b = sep then ([], b :: rest)
    else
      let p := splitFirstKeep sep rest
      (b :: p.1, p.2)

/-- Cut at the first occurrence of either separator (`strings.IndexAny`
with `"&;"`). -/
def splitFirstAny2 (a b : Nat) : List Nat → List Nat × Option (List Nat)
  | [] => ([], none)
  | x :: rest =>
    if x = a ∨ x = b then ([], some rest)
    else
      let p := splitFirstAny2 a b rest
      (x :: p.1, p.2)

/-- ASCII lower-casing of one byte (`strings.ToLower` on scheme bytes). -/
def toLowerByte (b : Nat) : Nat := if 65 ≤ b ∧ b ≤ 90 then b + 32 else b

/-- `getscheme`: scan for `letter (letter | digit | + | - | .)* :`; no such
prefix means no scheme (the whole input is the remainder); a leading `:`
is an error. -/
def getSchemeAux (orig acc : List Nat) : List Nat → Option (List Nat × List Nat)
  | [] => some ([], orig)
  | b :: rest =>
    if (65 ≤ b ∧ b ≤ 90) ∨ (97 ≤ b ∧ b ≤ 122) then getSchemeAux orig (acc ++ [b]) rest
    else if (48 ≤ b ∧ b ≤ 57) ∨ b = 43 ∨ b = 45 ∨ b = 46 then
      (if acc = [] then some ([], orig) else getSchemeAux orig (acc ++ [b]) rest)
    else if b = 58 then (if acc = [] then none else some (acc, rest))
    else some ([], orig)

/-- `getscheme` entry point. -/
def getScheme (s : List Nat) : Option (List Nat × List Nat) :=
  getSchemeAux s [] s

/-- `url.Parse` on the URL shapes this program produces: fragment cut,
scheme, query cut, `//`-authority (rejecting `%` in the host as Go does;
user-info and rootless opaque URLs are outside the model and return
`none`), path unescaping. -/
def parseURL (rawurl : List Nat) : Option GoURL :=
  let u0 := (splitFirst 35 rawurl).1
  match getScheme u0 with
  | none => none
  | some (scheme0, rest0) =>
    let scheme := scheme0.map toLowerByte
    let q := splitFirst 63 rest0
    let rest1 := q.1
    let rawQuery := match q.2 with
      | some r => r
      | none => []
    match rest1 with
    | 47 :: 47 :: rest2 =>
      if scheme = [] ∧ rest2.head? = some 47 then
        -- "///...": no authority when there is no scheme
        match pathUnescape rest1 with
        | some p => some ⟨scheme, [], p, rawQuery⟩
        | none => none
      else
        let a := splitFirstKeep 47 rest2
        if a.1.contains 64 ∨ a.1.contains 37 then none
        else
          match pathUnescape a.2 with
          | some p => some ⟨scheme, a.1, p, rawQuery⟩
          | none => none
    | 47 :: rest2 =>
      match pathUnescape (47 :: rest2) with
      | some p => some ⟨scheme, [], p, rawQuery⟩
      | none => none
    | _ => none  -- rootless: Go stores it in Opaque, which is outside the model

/-- `buildGeocodingURL` from `goforecast.go`: build the URL literal with
the fixed host and path, set the raw query to `vals.Encode()` when `vals`
is non-empty, then re-`Parse` its `String()`. -/
def buildGeocodingURL (scheme : List Nat) (vals : Values) : Option GoURL :=
  let u : GoURL := ⟨scheme, geocodeHost, geocodePath,
    if vals.length ≠ 0 then valuesEncode vals else []⟩
  parseURL (urlString u)

/-- `parseGeocodingAddr` from `goforecast.go`: note the address is
`QueryEscape`d once here, and `Values.Encode` escapes it again. -/
def parseGeocodingAddr (addr : List Nat) : Values :=
  valuesAdd (valuesAdd [] (bs "address") (queryEscape addr)) (bs "sensor") (bs "false")

/-- One pass of `parseQuery`: split a `key=value` chunk at `&`/`;`,
unescape both sides, append to the map; an unescape failure skips the pair
and records the error.  The fuel bounds the number of chunks and is set
above the input length. -/
def parseQueryAux : Nat → List Nat → Values → Values × Bool
  | _, [], m => (m, true)
  | 0, _, m => (m, false)
  | fuel + 1, q, m =>
    let c := splitFirstAny2 38 59 q
    let step : Values × Bool :=
      if c.1 = [] then (m, true)
      else
        let kv := splitFirst 61 c.1
        let v := match kv.2 with
          | some v => v
          | none => []
        match queryUnescape kv.1, queryUnescape v with
        | some k2, some v2 => (valuesAdd m k2 v2, true)
        | _, _ => (m, false)
    match c.2 with
    | none => step
    | some rest =>
      let next := parseQueryAux fuel rest step.1
      (next.1, step.2 && next.2)

/-- `url.ParseQuery`: the decoded map, plus `true` when no pair failed to
decode. -/
def parseQueryModel (q : List Nat) : Values × Bool :=
  parseQueryAux (q.length + 1) q []

/-! ## Lemmas about the URL model -/

theorem hexDigitVal_upperHexDigit {d : Nat} (h : d < 16) :
    hexDigitVal (upperHexDigit d) = some d := by
  interval_cases d <;> decide

/-- Characterization of the bytes `QueryEscape` can emit (for inputs of
genuine bytes): `+`, `%`, hex digits and unescaped characters. -/
theorem queryEscape_mem {s : List Nat} (h : ∀ b ∈ s, b < 256) {x : Nat}
    (hx : x ∈ queryEscape s) :
    x = 43 ∨ x = 37 ∨ (48 ≤ x ∧ x ≤ 57) ∨ (65 ≤ x ∧ x ≤ 90)
      ∨ (97 ≤ x ∧ x ≤ 122) ∨ x = 45 ∨ x = 95 ∨ x = 46 ∨ x = 126 := by
  rw [queryEscape, List.mem_flatMap] at hx
  obtain ⟨b, hbs, hxe⟩ := hx
  have hb := h b hbs
  by_cases hesc : shouldEscapeQuery b = true
  · by_cases h32 : b = 32
    · subst h32
      simp [escapeQueryByte, hesc] at hxe
      subst hxe
      omega
    · simp [escapeQueryByte, hesc, h32] at hxe
      have h16 : b / 16 < 16 := by omega
      have hm : b % 16 < 16 := by omega
      have hrange : ∀ d : Nat, d < 16 →
          (48 ≤ upperHexDigit d ∧ upperHexDigit d ≤ 57)
            ∨ (65 ≤ upperHexDigit d ∧ upperHexDigit d ≤ 70) := by
        intro d hd
        rw [upperHexDigit]
        split <;> omega
      rcases hxe with rfl | rfl | rfl
      · omega
      · rcases hrange _ h16 with h | h <;> omega
      · rcases hrange _ hm with h | h <;> omega
  · simp [escapeQueryByte, hesc] at hxe
    subst hxe
    simp [shouldEscapeQuery, isAlnumByte] at hesc
    omega

/-- Bytes emitted by `QueryEscape` are bytes. -/
theorem queryEscape_lt256 {s : List Nat} (h : ∀ b ∈ s, b < 256) :
    ∀ x ∈ queryEscape s, x < 256 := by
  intro x hx
  rcases queryEscape_mem h hx with h | h | h | h | h | h | h | h | h <;> omega

/-- `QueryEscape` output never contains the URL metacharacters `#` `&` `/`
`;` `=` `?`. -/
theorem queryEscape_no_meta {s : List Nat} (h : ∀ b ∈ s, b < 256) :
    ∀ x ∈ queryEscape s, x ≠ 35 ∧ x ≠ 38 ∧ x ≠ 47 ∧ x ≠ 59 ∧ x ≠ 61 ∧ x ≠ 63 := by
  intro x hx
  rcases queryEscape_mem h hx with h | h | h | h | h | h | h | h | h <;> omega

theorem queryUnescape_plus (T : List Nat) :
    queryUnescape (43 :: T) = (queryUnescape T).map fun t => 32 :: t := by
  rw [queryUnescape.eq_def]
  simp

theorem queryUnescape_lit {b : Nat} (h37 : b ≠ 37) (h43 : b ≠ 43) (T : List Nat) :
    queryUnescape (b :: T) = (queryUnescape T).map fun t => b :: t := by
  rw [queryUnescape.eq_def]
  simp [h37, h43]

theorem queryUnescape_pct {h1 h2 : Nat} {x y : Nat}
    (hh1 : hexDigitVal h1 = some x) (hh2 : hexDigitVal h2 = some y) (T : List Nat) :
    queryUnescape (37 :: h1 :: h2 :: T) =
      (queryUnescape T).map fun t => (16 * x + y) :: t := by
  rw [queryUnescape.eq_def]
  simp [hh1, hh2]

/-- One escaped byte decodes back and the parse continues. -/
theorem queryUnescape_escapeByte {b : Nat} (hb : b < 256) (T : List Nat) :
    queryUnescape (escapeQueryByte b ++ T) =
      (queryUnescape T).map fun t => b :: t := by
  by_cases hesc : shouldEscapeQuery b = true
  · by_cases h32 : b = 32
    · subst h32
      simp only [escapeQueryByte, hesc, if_pos, List.cons_append, List.nil_append]
      rw [queryUnescape_plus]
    · have h16 : b / 16 < 16 := by omega
      have hm : b % 16 < 16 := by omega
      have harith : 16 * (b / 16) + b % 16 = b := by omega
      simp only [escapeQueryByte, hesc, if_pos, if_neg h32, List.cons_append,
        List.nil_append]
      rw [queryUnescape_pct (hexDigitVal_upperHexDigit h16)
        (hexDigitVal_upperHexDigit hm), harith]
  · have h37 : b ≠ 37 := by
      intro hb37
      subst hb37
      exact hesc (by decide)
    have h43 : b ≠ 43 := by
      intro hb43
      subst hb43
      exact hesc (by decide)
    simp only [escapeQueryByte, hesc, Bool.false_eq_true, if_false,
      List.cons_append, List.nil_append]
    rw [queryUnescape_lit h37 h43]

/-- `QueryUnescape` inverts `QueryEscape` on byte inputs. -/
theorem queryUnescape_queryEscape {s : List Nat} (h : ∀ b ∈ s, b < 256) :
    queryUnescape (queryEscape s) = some s := by
  induction s with
  | nil => rfl
  | cons b rest ih =>
    rw [queryEscape, List.flatMap_cons, queryUnescape_escapeByte (h b (by simp))]
    rw [show rest.flatMap escapeQueryByte = queryEscape rest from rfl]
    rw [ih fun x hx => h x (by simp [hx])]
    rfl

theorem splitFirst_not_mem {sep : Nat} {l : List Nat} (h : sep ∉ l) :
    splitFirst sep l = (l, none) := by
  induction l with
  | nil => rfl
  | cons b rest ih =>
    have hb : ¬ b = sep := fun he => h (he ▸ List.mem_cons_self b rest)
    have hr : sep ∉ rest := fun he => h (List.mem_cons_of_mem b he)
    simp [splitFirst, hb, ih hr]

theorem splitFirst_append {sep : Nat} {l : List Nat} (h : sep ∉ l) (r : List Nat) :
    splitFirst sep (l ++ sep :: r) = (l, some r) := by
  induction l with
  | nil => simp [splitFirst]
  | cons b rest ih =>
    have hb : ¬ b = sep := fun he => h (he ▸ List.mem_cons_self b rest)
    have hr : sep ∉ rest := fun he => h (List.mem_cons_of_mem b he)
    simp [splitFirst, hb, ih hr]

theorem splitFirstAny2_not_mem {a b : Nat} {l : List Nat}
    (h : ∀ x ∈ l, x ≠ a ∧ x ≠ b) :
    splitFirstAny2 a b l = (l, none) := by
  induction l with
  | nil => rfl
  | cons c rest ih =>
    have hc := h c (List.mem_cons_self c rest)
    have hr : ∀ x ∈ rest, x ≠ a ∧ x ≠ b := fun x hx => h x (List.mem_cons_of_mem c hx)
    simp [splitFirstAny2, hc.1, hc.2, ih hr]

theorem splitFirstAny2_append {a b : Nat} {l : List Nat}
    (h : ∀ x ∈ l, x ≠ a ∧ x ≠ b) (r : List Nat) :
    splitFirstAny2 a b (l ++ a :: r) = (l, some r) := by
  induction l with
  | nil => simp [splitFirstAny2]
  | cons c rest ih =>
    have hc := h c (List.mem_cons_self c rest)
    have hr : ∀ x ∈ rest, x ≠ a ∧ x ≠ b := fun x hx => h x (List.mem_cons_of_mem c hx)
    simp [splitFirstAny2, hc.1, hc.2, ih hr]

theorem getScheme_http (r : List Nat) :
    getScheme (bs "http:" ++ r) = some (bs "http", r) := by
  simp [getScheme, getSchemeAux, bs]

/-- What `url.Parse` recovers from the string this program's URL literal
prints: the host loses the trailing slash of `geocodeHost` (it terminates
the authority), and the path gains a doubled leading slash. -/
theorem parseURL_geocode {q : List Nat} (hq : q ≠ []) (h35 : 35 ∉ q) :
    parseURL (urlString ⟨bs "http", geocodeHost, geocodePath, q⟩)
      = some ⟨bs "http", bs "maps.googleapis.com", bs "//maps/api/geocode/json", q⟩ := by
  have h1 : (bs "http" : List Nat) ≠ [] := by decide
  have h3 : geocodePath ≠ [] ∧ geocodePath.head? ≠ some 47 ∧ geocodeHost ≠ [] := by
    decide
  have h4 : pathEscape geocodePath = geocodePath := by decide
  have hstr : urlString ⟨bs "http", geocodeHost, geocodePath, q⟩
      = bs "http://maps.googleapis.com//maps/api/geocode/json" ++ 63 :: q := by
    simp only [urlString, if_pos h1, if_pos (Or.inl h1), if_pos h3, if_pos hq, h4]
    congr 1
  rw [hstr]
  have hP : (bs "http://maps.googleapis.com//maps/api/geocode/json" : List Nat)
      = bs "http:" ++ bs "//maps.googleapis.com//maps/api/geocode/json" := by decide
  have h35all : 35 ∉ bs "http://maps.googleapis.com//maps/api/geocode/json" ++ 63 :: q := by
    intro hx
    rcases List.mem_append.1 hx with hx | hx
    · exact absurd hx (by decide)
    · rcases List.mem_cons.1 hx with hx | hx
      · omega
      · exact h35 hx
  rw [parseURL]
  rw [splitFirst_not_mem h35all]
  rw [hP, List.append_assoc, getScheme_http]
  have h63 : (63 : Nat) ∉ bs "//maps.googleapis.com//maps/api/geocode/json" := by decide
  simp only [splitFirst_append h63 q]
  have hP2 : (bs "//maps.googleapis.com//maps/api/geocode/json" : List Nat)
      = 47 :: 47 :: bs "maps.googleapis.com//maps/api/geocode/json" := by decide
  rw [hP2]
  have hmap : List.map toLowerByte (bs "http") = bs "http" := by decide
  have hkeep : splitFirstKeep 47 (bs "maps.googleapis.com//maps/api/geocode/json")
      = (bs "maps.googleapis.com", bs "//maps/api/geocode/json") := by decide
  have hcont : ¬ ((bs "maps.googleapis.com" : List Nat).contains 64
      ∨ (bs "maps.googleapis.com" : List Nat).contains 37) := by decide
  have hpu : pathUnescape (bs "//maps/api/geocode/json")
      = some (bs "//maps/api/geocode/json") := by decide
  simp [hmap, hkeep, hcont, hpu]
  rw [if_neg (by decide), if_neg (by decide)]

/-- The `fuel + 1` unfolding of `parseQueryAux` on non-empty input. -/
theorem parseQueryAux_succ {fuel : Nat} {q : List Nat} (hq : q ≠ []) (m : Values) :
    parseQueryAux (fuel + 1) q m =
      (let c := splitFirstAny2 38 59 q
       let step : Values × Bool :=
         if c.1 = [] then (m, true)
         else
           let kv := splitFirst 61 c.1
           let v := match kv.2 with
             | some v => v
             | none => []
           match queryUnescape kv.1, queryUnescape v with
           | some k2, some v2 => (valuesAdd m k2 v2, true)
           | _, _ => (m, false)
       match c.2 with
       | none => step
       | some rest =>
         let next := parseQueryAux fuel rest step.1
         (next.1, step.2 && next.2)) := by
  cases q with
  | nil => exact absurd rfl hq
  | cons b qt => rfl

/-- The trailing `sensor=false` chunk of the query decodes onto any map. -/
theorem parseQueryAux_sensor (fuel : Nat) (m : Values) :
    parseQueryAux (fuel + 1) (bs "sensor" ++ 61 :: bs "false") m
      = (valuesAdd m (bs "sensor") (bs "false"), true) := by
  rw [parseQueryAux_succ (by decide)]
  rw [show splitFirstAny2 38 59 (bs "sensor" ++ 61 :: bs "false")
      = (bs "sensor" ++ 61 :: bs "false", none) by decide]
  simp only []
  rw [if_neg (by decide : ¬ (bs "sensor" ++ 61 :: bs "false" : List Nat) = [])]
  rw [show splitFirst 61 (bs "sensor" ++ 61 :: bs "false")
      = (bs "sensor", some (bs "false")) by decide]
  simp only []
  rw [show queryUnescape (bs "sensor") = some (bs "sensor") by decide,
    show queryUnescape (bs "false") = some (bs "false") by decide]

/-- Decoding the full query string this program produces: the `address`
value comes back as the once-escaped address (the escaping applied by
`parseGeocodingAddr` survives, since `Values.Encode`'s own escaping is the
one `ParseQuery` undoes). -/
theorem parseQuery_geocode (addr : List Nat) (h : ∀ b ∈ addr, b < 256) :
    parseQueryModel ((bs "address" ++ 61 :: queryEscape (queryEscape addr))
        ++ 38 :: (bs "sensor" ++ 61 :: bs "false"))
      = ([(bs "address", [queryEscape addr]), (bs "sensor", [bs "false"])], true) := by
  have hX256 : ∀ x ∈ queryEscape addr, x < 256 := queryEscape_lt256 h
  have hXmeta := queryEscape_no_meta hX256
  have hsep : ∀ x ∈ bs "address" ++ 61 :: queryEscape (queryEscape addr),
      x ≠ 38 ∧ x ≠ 59 := by
    intro x hx
    rcases List.mem_append.1 hx with hx | hx
    · exact (by decide : ∀ y ∈ bs "address", y ≠ 38 ∧ y ≠ 59) x hx
    · rcases List.mem_cons.1 hx with rfl | hx
      · omega
      · obtain ⟨_, h38, _, h59, _, _⟩ := hXmeta x hx
        exact ⟨h38, h59⟩
  have hQne : (bs "address" ++ 61 :: queryEscape (queryEscape addr))
      ++ 38 :: (bs "sensor" ++ 61 :: bs "false") ≠ [] := by simp
  rw [parseQueryModel, parseQueryAux_succ hQne]
  rw [splitFirstAny2_append hsep]
  simp only []
  rw [if_neg (show ¬ (bs "address" ++ 61 :: queryEscape (queryEscape addr) : List Nat)
      = [] by simp [bs])]
  rw [splitFirst_append (by decide : (61 : Nat) ∉ bs "address")]
  simp only []
  rw [show queryUnescape (bs "address") = some (bs "address") by decide]
  rw [queryUnescape_queryEscape hX256]
  simp only []
  rw [show ((bs "address" ++ 61 :: queryEscape (queryEscape addr))
        ++ 38 :: (bs "sensor" ++ 61 :: bs "false")).length
      = ((bs "address" ++ 61 :: queryEscape (queryEscape addr)).length
          + (bs "sensor" ++ 61 :: bs "false").length) + 1 by
    rw [List.length_append, List.length_cons]
    omega]
  rw [parseQueryAux_sensor]
  simp [valuesAdd, show ¬ (bs "address" : List Nat) = bs "sensor" by decide]

/-- C2 (corrected claim): the built URL parses with host
`maps.googleapis.com` (the trailing slash of the `geocodeHost` constant is
not part of the parsed host — it terminates the authority), path
`//maps/api/geocode/json` (the constant's slash becomes a doubled leading
slash), and decoding the query yields `sensor = ["false"]` but
`address = [QueryEscape addr]` — the once-escaped address, equal to the
original exactly when escaping leaves it unchanged. -/
theorem c2_amended_url (addr : List Nat) (h : ∀ b ∈ addr, b < 256) :
    ∃ u, buildGeocodingURL (bs "http") (parseGeocodingAddr addr) = some u
      ∧ u.host = bs "maps.googleapis.com"
      ∧ u.path = bs "//maps/api/geocode/json"
      ∧ (parseQueryModel u.rawQuery).2 = true
      ∧ valuesGet (parseQueryModel u.rawQuery).1 (bs "address") = [queryEscape addr]
      ∧ valuesGet (parseQueryModel u.rawQuery).1 (bs "sensor") = [bs "false"] := by
  have hX256 : ∀ x ∈ queryEscape addr, x < 256 := queryEscape_lt256 h
  have hXmeta := queryEscape_no_meta hX256
  have hvals : parseGeocodingAddr addr
      = [(bs "address", [queryEscape addr]), (bs "sensor", [bs "false"])] := by
    simp [parseGeocodingAddr, valuesAdd,
      show ¬ (bs "address" : List Nat) = bs "sensor" by decide]
  have hsort : sortByKey [(bs "address", [queryEscape addr]), (bs "sensor", [bs "false"])]
      = [(bs "address", [queryEscape addr]), (bs "sensor", [bs "false"])] := by
    simp [sortByKey, insertPair, show lexLe (bs "address") (bs "sensor") = true by decide]
  have henc : valuesEncode (parseGeocodingAddr addr)
      = (bs "address" ++ 61 :: queryEscape (queryEscape addr))
          ++ 38 :: (bs "sensor" ++ 61 :: bs "false") := by
    rw [hvals, valuesEncode, hsort]
    simp [joinAmp, show queryEscape (bs "address") = bs "address" by decide,
      show queryEscape (bs "sensor") = bs "sensor" by decide,
      show queryEscape (bs "false") = bs "false" by decide]
  have hlen2 : (parseGeocodingAddr addr).length ≠ 0 := by
    rw [hvals]
    simp
  have hQne : (bs "address" ++ 61 :: queryEscape (queryEscape addr))
      ++ 38 :: (bs "sensor" ++ 61 :: bs "false") ≠ [] := by simp
  have h35 : (35 : Nat) ∉ (bs "address" ++ 61 :: queryEscape (queryEscape addr))
      ++ 38 :: (bs "sensor" ++ 61 :: bs "false") := by
    intro hx
    rcases List.mem_append.1 hx with hx | hx
    · rcases List.mem_append.1 hx with hx | hx
      · exact absurd hx (by decide)
      · rcases List.mem_cons.1 hx with he | hx
        · omega
        · exact (hXmeta 35 hx).1 rfl
    · rcases List.mem_cons.1 hx with he | hx
      · omega
      · exact absurd hx (by decide)
  have hQ := parseQuery_geocode addr h
  refine ⟨⟨bs "http", bs "maps.googleapis.com", bs "//maps/api/geocode/json",
      (bs "address" ++ 61 :: queryEscape (queryEscape addr))
        ++ 38 :: (bs "sensor" ++ 61 :: bs "false")⟩, ?_, rfl, rfl, ?_, ?_, ?_⟩
  · rw [buildGeocodingURL]
    simp only [if_pos hlen2, henc]
    exact parseURL_geocode hQne h35
  · rw [hQ]
  · rw [hQ]
    simp [valuesGet]
  · rw [hQ]
    simp [valuesGet, show ¬ (bs "address" : List Nat) = bs "sensor" by decide]

/-- C2 witness: for the address `94109` (all bytes below 256) the amended
statement holds concretely. -/
theorem c2_amended_url_witness :
    ∃ u, buildGeocodingURL (bs "http") (parseGeocodingAddr (bs "94109")) = some u
      ∧ u.host = bs "maps.googleapis.com"
      ∧ u.path = bs "//maps/api/geocode/json"
      ∧ (parseQueryModel u.rawQuery).2 = true
      ∧ valuesGet (parseQueryModel u.rawQuery).1 (bs "address")
          = [queryEscape (bs "94109")]
      ∧ valuesGet (parseQueryModel u.rawQuery).1 (bs "sensor") = [bs "false"] :=
  c2_amended_url (bs "94109") (by decide)

/-- C2 counterexample: at the address `94109` the parsed URL's host is not
the `geocodeHost` constant (`maps.googleapis.com/`) and its path is not the
`geocodePath` constant (`maps/api/geocode/json`); and at the address `a b`
the decoded `address` parameter is `a+b`, not the original `a b`. -/
theorem c2_claim_counterexample :
    buildGeocodingURL (bs "http") (parseGeocodingAddr (bs "94109"))
        = some ⟨bs "http", bs "maps.googleapis.com", bs "//maps/api/geocode/json",
            bs "address=94109&sensor=false"⟩
      ∧ bs "maps.googleapis.com" ≠ geocodeHost
      ∧ bs "//maps/api/geocode/json" ≠ geocodePath
      ∧ (buildGeocodingURL (bs "http") (parseGeocodingAddr (bs "a b"))).map
          (fun u => valuesGet (parseQueryModel u.rawQuery).1 (bs "address"))
          = some [bs "a+b"]
      ∧ bs "a+b" ≠ bs "a b" := by
  refine ⟨by decide, by decide, by decide, by decide, by decide⟩

end Goforecast
